import Mathlib

/-!
Verification of the certificate-expiry reconciliation and latest-record-per-entity
query engine of the `kmrl` repository (`fitness_certificates_ai.py`), as a shallow
embedding in Lean 4.

Conventions of the embedding:

* All instants are in the reference timezone (IST); `_to_dt` localizes every naive
  value into it and never converts between zones, so an instant is faithfully a pair
  of a calendar-day ordinal and a time-of-day, compared lexicographically.
  (`datetime.date()` is the `day` projection, `datetime.now(tz=IST).date()` is the
  `day` projection of `now`.)
* The `certificates` table is a `List Certificate`; SQL `GROUP BY` / `MAX` / `JOIN`
  become list functions; rows are appended in insertion order.
* Machine integers do not occur (Python ints are unbounded; counts are `Nat`).
* Fallible paths return `Option`/`Except`; an `Except.error` models a Python
  exception propagating out of the function.
-/

/-! ## Instants -/

/-- A timezone-aware instant in the reference timezone (IST): the calendar-day
ordinal (`day`, as produced by `datetime.date()`) and the time of day within it.
Comparison of instants is lexicographic in `(day, tod)`. -/
structure Instant where
  day : Int
  tod : Int
deriving DecidableEq, Repr

/-- `a <= b` on instants (Python `datetime` comparison, both in IST). -/
def Instant.le (a b : Instant) : Bool :=
  decide (a.day < b.day) || (decide (a.day = b.day) && decide (a.tod ≤ b.tod))

/-- `a < b` on instants. -/
def Instant.lt (a b : Instant) : Bool :=
  decide (a.day < b.day) || (decide (a.day = b.day) && decide (a.tod < b.tod))

/-! ## String helpers


Python's `str.lower` / `str.upper` / `str.strip` on the ASCII identifiers and
status words used by this program, implemented over the character list of the
string so that the kernel can evaluate them. -/

/-- Python `str.lower` (ASCII as exercised by the program). -/
def strLower (s : String) : String := String.mk (s.data.map Char.toLower)

/-- Python `str.upper` (ASCII as exercised by the program). -/
def strUpper (s : String) : String := String.mk (s.data.map Char.toUpper)

/-- Whitespace recognised by Python `str.strip` for the inputs that occur here. -/
def isSpaceChar (c : Char) : Bool := c = ' ' || c = '\t' || c = '\n' || c = '\r'

/-- Python `str.strip`. -/
def strStrip (s : String) : String :=
  String.mk (((s.data.dropWhile isSpaceChar).reverse.dropWhile isSpaceChar).reverse)

/-- Bool test that list `p` is an initial segment of list `s` (for Python
`str.startswith`). -/
def charListLeads : List Char → List Char → Bool
  | [], _ => true
  | _ :: _, [] => false
  | a :: ps, b :: ss => decide (a = b) && charListLeads ps ss

/-- Python `s.startswith(p)`. -/
def strStarts (s p : String) : Bool := charListLeads p.data s.data

/-- Python `s[:n]`. -/
def strTake (s : String) (n : Nat) : String := String.mk (s.data.take n)

/-- Python string `<` (lexicographic by code point), kernel-evaluable. -/
def charListLt : List Char → List Char → Bool
  | [], [] => false
  | [], _ :: _ => true
  | _ :: _, [] => false
  | a :: as, b :: bs => decide (a < b) || (decide (a = b) && charListLt as bs)

/-- Python string `<`. -/
def strLt (a b : String) : Bool := charListLt a.data b.data

/-! ## Data model (`class Certificate`) -/

/-- A row of the `certificates` table. `id` is the autoincrement primary key;
`status` is nullable; `valid_from` is nullable; `valid_to` is NOT NULL. The
`source`, `created_at`, `updated_at` provenance columns play no role in any
claim and `created_at`/`updated_at` are server-assigned, so only `source` is
kept. -/
structure Certificate where
  id : Nat
  trainset_id : String
  dept : String
  status : Option String
  valid_from : Option Instant
  valid_to : Instant
  source : String
deriving DecidableEq, Repr

/-- The `_VALID_MAP` keys: the valid-status synonym set. -/
def VALID_KEYS : List String := ["valid", "active", "ok", "cleared", "1", "true", "v"]

/-- `_valid_status_clause`: `True` when status is `None`, otherwise membership of
the lowercased status in `_VALID_MAP`. -/
def valid_status_clause : Option String → Bool
  | none => true
  | some s => VALID_KEYS.contains (strLower s)

/-- `_dept_norm`: uppercase, map known department names to the codes RS/SIG/TEL
by their leading letters, pass canonical codes through, truncate anything else
to 8 characters. Empty or missing input gives the empty string. -/
def dept_norm (x : String) : String :=
  if x = "" then ""
  else
    let u := strUpper x
    if strStarts u "ROLLING" then "RS"
    else if strStarts u "SIG" then "SIG"
    else if strStarts u "TEL" then "TEL"
    else if u = "RS" || u = "SIG" || u = "TEL" then u
    else strTake u 8

/-! ## Latest record per (trainset_id, dept)

The reporter queries build a subquery `GROUP BY trainset_id, dept` with
`MAX(valid_to)` and join the table against it on equality of all three columns,
so a row is returned exactly when its `valid_to` equals the maximum `valid_to`
of its (trainset_id, dept) group. -/

/-- The rows of one (trainset_id, dept) group. -/
def groupOf (store : List Certificate) (t d : String) : List Certificate :=
  store.filter (fun c => decide (c.trainset_id = t) && decide (c.dept = d))

/-- SQL `MAX(valid_to)` over a list of rows (`none` on the empty group). -/
def maxValidTo : List Certificate → Option Instant
  | [] => none
  | c :: rest =>
    match maxValidTo rest with
    | none => some c.valid_to
    | some m => some (if Instant.le m c.valid_to then c.valid_to else m)

/-- A row joins against the grouped subquery exactly when its `valid_to` is the
maximum of its group. -/
def isLatest (store : List Certificate) (c : Certificate) : Bool :=
  decide (maxValidTo (groupOf store c.trainset_id c.dept) = some c.valid_to)

/-- The rows produced by the latest-per-(trainset_id, dept) join. -/
def latestRows (store : List Certificate) : List Certificate :=
  store.filter (isLatest store)

/-! ## Validity/Expiry Reporter -/

/-- The validity gate of `expiring_within` (line
`if not (_valid_status_clause(st) or (st is None and v_to_dt >= now)): continue`).
Note the second disjunct: `v_to_dt >= now` is `Instant.le now vto`. -/
def expiringGate (now : Instant) (st : Option String) (vto : Instant) : Bool :=
  valid_status_clause st || (st.isNone && Instant.le now vto)

/-- The latest rows that `expiring_within(days)` keeps: the validity gate plus
the calendar-day window `0 <= (v_to_dt.date() - today).days <= days`, where
`today = now.date()`. (`_to_dt` on a stored datetime is the identity: the
explicit date-only formats never match its string form, and the
`isinstance(value, datetime)` branch localizes the naive stored value back into
IST unchanged.) -/
def expiringSelect (days : Int) (now : Instant) (store : List Certificate) :
    List Certificate :=
  (latestRows store).filter (fun c =>
    expiringGate now c.status c.valid_to
    && decide (0 ≤ c.valid_to.day - now.day)
    && decide (c.valid_to.day - now.day ≤ days))

/-- An output row of `expiring_within`. -/
structure ExpiryRow where
  train_id : String
  department : String
  expiry_date : String
  days_to_expiry : Int
deriving DecidableEq, Repr

/-- Insertion into a sorted list under a Bool preorder (model of Python's stable
`list.sort`). -/
def insertSorted (le : α → α → Bool) (x : α) : List α → List α
  | [] => [x]
  | y :: ys => if le x y then x :: y :: ys else y :: insertSorted le x ys

/-- Insertion sort under a Bool preorder. -/
def sortedBy (le : α → α → Bool) : List α → List α
  | [] => []
  | x :: xs => insertSorted le x (sortedBy le xs)


/-- The sort key of the expiring report: ascending `(days_to_expiry, train_id,
department)` with Python tuple comparison. -/
def expiryRowLe (a b : ExpiryRow) : Bool :=
  decide (a.days_to_expiry < b.days_to_expiry)
  || (decide (a.days_to_expiry = b.days_to_expiry)
      && (strLt a.train_id b.train_id
          || (decide (a.train_id = b.train_id)
              && (strLt a.department b.department || decide (a.department = b.department)))))

/-! ## Civil dates

`strptime`/`strftime` and the pandas date parses operate on proleptic Gregorian
civil dates. `dayOrd` maps a civil date to the day ordinal used in `Instant.day`
(0 for 0001-01-01) and `ordinalToDate` inverts it; both are only ever evaluated,
never reasoned about symbolically. -/

/-- A civil (year, month, day) date. -/
structure CivilDate where
  y : Nat
  m : Nat
  d : Nat
deriving DecidableEq, Repr

/-- Gregorian leap-year rule. -/
def isLeap (y : Nat) : Bool := (y % 4 = 0 && y % 100 ≠ 0) || y % 400 = 0

/-- Length of month `m` of year `y`. -/
def daysInMonth (y m : Nat) : Nat :=
  if m = 2 then (if isLeap y then 29 else 28)
  else if m = 4 || m = 6 || m = 9 || m = 11 then 30
  else 31

/-- Days of year `y` that precede month `m`. -/
def daysBeforeMonth (y m : Nat) : Nat :=
  (List.range (m - 1)).foldl (fun a i => a + daysInMonth y (i + 1)) 0

/-- Day ordinal of a civil date: 0 for 0001-01-01. -/
def dayOrd (y m d : Nat) : Nat :=
  let py := y - 1
  365 * py + py / 4 - py / 100 + py / 400 + daysBeforeMonth y m + (d - 1)

/-- A date is one `strptime` would accept with the formats used here: year
1..9999, month 1..12, day within the month. -/
def validDate (y m d : Nat) : Bool :=
  1 ≤ y && y ≤ 9999 && 1 ≤ m && m ≤ 12 && 1 ≤ d && d ≤ daysInMonth y m

/-- Build a civil date after range validation. -/
def mkDate (y m d : Nat) : Option CivilDate :=
  if validDate y m d then some ⟨y, m, d⟩ else none

/-- The year containing day ordinal `n` (bounded search below the first
overestimate; evaluation only). -/
def yearOfOrd (n : Nat) : Nat :=
  (((List.range 12).map (fun k => n / 365 + 2 - k)).find?
    (fun y => 1 ≤ y && dayOrd y 1 1 ≤ n)).getD 1

/-- The month of year `y` containing day-of-year `doy` (0-based). -/
def monthOfDoy (y doy : Nat) : Nat :=
  (((List.range 12).map (fun k => 12 - k)).find?
    (fun m => daysBeforeMonth y m ≤ doy)).getD 1

/-- Inverse of `dayOrd` (evaluation only). -/
def ordinalToDate (n : Nat) : CivilDate :=
  let y := yearOfOrd n
  let doy := n - dayOrd y 1 1
  let m := monthOfDoy y doy
  ⟨y, m, doy - daysBeforeMonth y m + 1⟩

/-- Two-digit zero padding of `strftime`. -/
def pad2 (n : Nat) : String := if n < 10 then "0" ++ toString n else toString n

/-- `strftime("%d/%m/%Y")` of an instant (already in IST, so `astimezone(IST)`
is the identity). -/
def formatDDMMYYYY (i : Instant) : String :=
  let dt := ordinalToDate i.day.toNat
  pad2 dt.d ++ "/" ++ pad2 dt.m ++ "/" ++ toString dt.y

/-! ## Date parsing (`_to_dt`, `_parse_date_series`)

The per-cell parsers work on the character list of the raw string. Fields are
runs of digits; a format matches only when it consumes the whole string and the
resulting date passes `strptime` range validation. -/

/-- Split a character list at a separator character. -/
def splitCh (sep : Char) : List Char → List (List Char)
  | [] => [[]]
  | c :: rest =>
    match splitCh sep rest with
    | [] => [[]]
    | cur :: parts => if c = sep then [] :: cur :: parts else (c :: cur) :: parts

/-- Numeric value of a digit run. -/
def digitsToNat (cs : List Char) : Nat :=
  cs.foldl (fun a c => a * 10 + (c.toNat - 48)) 0

/-- A `strptime` numeric field: nonempty, all digits, at most `maxLen` digits. -/
def parseNumField (maxLen : Nat) (cs : List Char) : Option Nat :=
  if cs ≠ [] && cs.all Char.isDigit && cs.length ≤ maxLen then some (digitsToNat cs)
  else none

/-- `strptime(s, "%Y-%m-%d")`. -/
def fmtYmdDash (s : String) : Option CivilDate :=
  match splitCh '-' s.data with
  | [a, b, c] => do
    let y ← parseNumField 4 a
    let m ← parseNumField 2 b
    let d ← parseNumField 2 c
    mkDate y m d
  | _ => none

/-- `strptime(s, "%d/%m/%Y")`. -/
def fmtDmySlash (s : String) : Option CivilDate :=
  match splitCh '/' s.data with
  | [a, b, c] => do
    let d ← parseNumField 2 a
    let m ← parseNumField 2 b
    let y ← parseNumField 4 c
    mkDate y m d
  | _ => none

/-- `strptime(s, "%m/%d/%Y")`. -/
def fmtMdySlash (s : String) : Option CivilDate :=
  match splitCh '/' s.data with
  | [a, b, c] => do
    let m ← parseNumField 2 a
    let d ← parseNumField 2 b
    let y ← parseNumField 4 c
    mkDate y m d
  | _ => none

/-- `strptime(s, "%d-%m-%Y")`. -/
def fmtDmyDash (s : String) : Option CivilDate :=
  match splitCh '-' s.data with
  | [a, b, c] => do
    let d ← parseNumField 2 a
    let m ← parseNumField 2 b
    let y ← parseNumField 4 c
    mkDate y m d
  | _ => none

/-- Model of permissive `pandas.to_datetime(s, errors="coerce", dayfirst=df)` on
the numeric triple date strings this program exercises (separators `/` or `-`,
4-digit year). With `dayfirst=False` (the pandas default) the first field is
preferred as the month; with `dayfirst=True` as the day; when the preferred
reading is out of range the fields are swapped (dateutil's fallback). Strings of
any other shape give `none` (NaT). -/
def pandasCoerce (dayfirst : Bool) (s : String) : Option CivilDate :=
  let cs := s.data
  let parts := if cs.contains '/' then splitCh '/' cs else splitCh '-' cs
  match parts with
  | [a, b, c] =>
    if a.all Char.isDigit && b.all Char.isDigit && c.all Char.isDigit
        && a ≠ [] && b ≠ [] && c ≠ [] then
      let x := digitsToNat a
      let y := digitsToNat b
      let z := digitsToNat c
      if a.length = 4 then mkDate x y z
      else if c.length = 4 then
        if dayfirst then (mkDate z y x).or (mkDate z x y)
        else (mkDate z x y).or (mkDate z y x)
      else none
    else none
  | _ => none

/-- `_to_dt` on a raw string value: empty markers, then the explicit format list
`"%Y-%m-%d", "%d/%m/%Y", "%m/%d/%Y", "%d-%m-%Y"` in order, then (for a string,
which is not a `datetime`) the permissive day-first fallback. A date localizes
to IST midnight of its day ordinal. -/
def to_dt (s : String) : Option Instant :=
  if s = "" || s = "null" || s = "NaT" then none
  else
    let t := strStrip s
    let explicitFmt :=
      (fmtYmdDash t).or ((fmtDmySlash t).or ((fmtMdySlash t).or (fmtDmyDash t)))
    (explicitFmt.or (pandasCoerce true t)).map
      (fun dt => { day := (dayOrd dt.y dt.m dt.d : Int), tod := 0 })

/-- The column-parse strategies of `_parse_date_series`, in source order:
permissive default (month-first), permissive day-first, then the explicit
formats `"%d-%m-%Y"`, `"%Y-%m-%d"`, `"%d/%m/%Y"`, `"%m/%d/%Y"`. -/
def seriesStrategies : List (String → Option CivilDate) :=
  [pandasCoerce false, pandasCoerce true, fmtDmyDash, fmtYmdDash, fmtDmySlash, fmtMdySlash]

/-- Try strategies over the whole column; keep the first whose output has at
least one non-null; otherwise the final permissive fallback (which repeats the
first strategy). -/
def trySeries (col : List String) : List (String → Option CivilDate) → List (Option CivilDate)
  | [] => col.map (pandasCoerce false)
  | p :: ps =>
    let out := col.map p
    if out.any Option.isSome then out else trySeries col ps

/-- `_parse_date_series` on a column of raw strings. -/
def parse_date_series (col : List String) : List (Option CivilDate) :=
  trySeries col seriesStrategies

/-! ## Reporter operations -/

/-- The per-row filter of `total_active`:
`(_valid_status_clause(st) or st is None) and vt >= now`. -/
def totalRule (now : Instant) (c : Certificate) : Bool :=
  (valid_status_clause c.status || c.status.isNone) && Instant.le now c.valid_to

/-- `total_active` (without the optional pre-ingest step): the number of joined
latest rows passing `totalRule`. `_to_dt` on the stored datetime is the
identity, so its `None` guard never fires. -/
def total_active (now : Instant) (store : List Certificate) : Nat :=
  ((latestRows store).filter (totalRule now)).length

/-- `expiring_within` (without the optional pre-ingest step): the selected
latest rows, formatted and sorted by `(days_to_expiry, train_id, department)`. -/
def expiring_within (days : Int) (now : Instant) (store : List Certificate) :
    List ExpiryRow :=
  sortedBy expiryRowLe ((expiringSelect days now store).map (fun c =>
    { train_id := c.trainset_id
      department := c.dept
      expiry_date := formatDDMMYYYY c.valid_to
      days_to_expiry := c.valid_to.day - now.day }))

/-- The validity rule exactly as the specification words it for the reporter:
status in the valid-status synonym set, or status absent and `validTo` still in
the future (not yet expired) relative to `now`. Stated from the spec, for
comparison against the code's `expiringGate` and `totalRule`. -/
def specValidityRule (now : Instant) (st : Option String) (vto : Instant) : Bool :=
  (match st with
   | some s => VALID_KEYS.contains (strLower s)
   | none => false)
  || (st.isNone && Instant.lt now vto)

/-! ## Record Ingestor (`upsert_from_csv`)

A row of the prepared frame (after `_norm_cols`, column resolution,
`_parse_date_series` on the date columns, the `_VALID_MAP` fill on status and
`_dept_norm` on dept). A date cell is `some d` for a parsed `Timestamp` and
`none` for `NaT`. -/
structure IngRow where
  train : String
  dept : String
  status : Option String
  vfrom : Option (Option CivilDate)
  vto : Option CivilDate
deriving DecidableEq, Repr

/-- `_to_dt` applied to a cell of a parsed date column. A `Timestamp` fails the
explicit date-only formats (its string form carries a time), is an instance of
`datetime`, and is localized into IST unchanged. `NaT` slips past the marker
check `value in (None, "", "null", "NaT")` — that compares the raw object, not
its string form, and `NaT` compares unequal to everything — it is itself an
instance of `datetime` with `tzinfo = None`, so `IST.localize(NaT)` is reached,
and inside pytz `localize` calls `tzinfo.normalize(NaT.replace(tzinfo=tzinfo))`
where `NaT.replace` returns `NaT` with `tzinfo = None`, making `normalize`
raise `ValueError('Naive time - no tzinfo set')`. -/
def to_dt_cell : Option CivilDate → Except String (Option Instant)
  | some dt => .ok (some { day := (dayOrd dt.y dt.m dt.d : Int), tod := 0 })
  | none => .error "ValueError: Naive time - no tzinfo set"

/-- Does a row with this (trainset_id, dept, valid_to) triple exist
(the `select(Certificate.id).where(...)` duplicate probe)? -/
def existsTriple (db : List Certificate) (t d : String) (vt : Instant) : Bool :=
  db.any (fun c =>
    decide (c.trainset_id = t) && decide (c.dept = d) && decide (c.valid_to = vt))

/-- The counters returned by `upsert_from_csv`. -/
structure UpsertResult where
  imported : Nat
  skipped : Nat
deriving DecidableEq, Repr

/-- The candidate `Certificate(...)` built for a row. -/
def mkCert (nid : Nat) (r : IngRow) (vt : Instant) (vf : Option Instant) :
    Certificate :=
  { id := nid
    trainset_id := strStrip r.train
    dept := strStrip r.dept
    status := r.status.map (fun s => strStrip (strLower s))
    valid_from := vf
    valid_to := vt
    source := "csv-import" }

/-- The `valid_from` value of the candidate record:
`_to_dt(r[vfrom]) if vfrom in raw.columns else None`. A `NaT` cell raises just
as for the expiry column. -/
def vfromValue : Option (Option CivilDate) → Except String (Option Instant)
  | none => .ok none
  | some cell => to_dt_cell cell

/-- The row loop of `upsert_from_csv`: per row, normalize the expiry; skip the
row if that yields `None` (counted); otherwise build the candidate record, skip
it if its uniqueness triple already exists (counted), else insert it and count
it as imported. An exception anywhere aborts the batch before `db.commit()`, so
the store is left as it was on entry. -/
def upsertRows : List IngRow → List Certificate → Nat →
    Except String (UpsertResult × List Certificate)
  | [], db, _ => .ok (⟨0, 0⟩, db)
  | r :: rest, db, nid =>
    match to_dt_cell r.vto with
    | .error e => .error e
    | .ok none =>
      (upsertRows rest db nid).map (fun p => ({ p.1 with skipped := p.1.skipped + 1 }, p.2))
    | .ok (some vt) =>
      match vfromValue r.vfrom with
      | .error e => .error e
      | .ok vf =>
        let cand := mkCert nid r vt vf
        if existsTriple db cand.trainset_id cand.dept cand.valid_to then
          (upsertRows rest db nid).map (fun p => ({ p.1 with skipped := p.1.skipped + 1 }, p.2))
        else
          (upsertRows rest (db ++ [cand]) (nid + 1)).map
            (fun p => ({ p.1 with imported := p.1.imported + 1 }, p.2))

/-! ## Listing and CRUD -/

/-- The `ORDER BY trainset_id, dept, valid_to DESC` of `list_certificates`. -/
def listOrderLe (a b : Certificate) : Bool :=
  strLt a.trainset_id b.trainset_id
  || (decide (a.trainset_id = b.trainset_id)
      && (strLt a.dept b.dept
          || (decide (a.dept = b.dept) && Instant.le b.valid_to a.valid_to)))

/-- The dict returned by `list_certificates`. Each row dict is a field renaming
of the `Certificate` row (with ISO-formatted dates); the renaming is one-to-one,
so the page is kept as the rows themselves. -/
structure ListResult where
  rows : List Certificate
  limit : Nat
  offset : Nat
  count : Nat
deriving DecidableEq, Repr

/-- `list_certificates(limit, offset)`: sort, apply offset then limit, and
report `count` as `len(rows)` of the returned page. -/
def list_certificates (db : List Certificate) (lim off : Nat) : ListResult :=
  let page := ((sortedBy listOrderLe db).drop off).take lim
  { rows := page, limit := lim, offset := off, count := page.length }

/-- The incoming dict of `add_certificate`; absent keys are `none`. -/
structure AddRecord where
  trainset_id : Option String
  dept : Option String
  status : Option String
  valid_from : Option String
  valid_to : Option String
  source : Option String
deriving DecidableEq, Repr

/-- Outcome of `add_certificate` at its caller: a returned dict (`ok` for
`{id}` / `errorResult` for `{error}`), or a Python exception propagating out of
the call (`raised`). -/
inductive AddOutcome where
  | ok (id : Nat)
  | errorResult (msg : String)
  | raised (msg : String)
deriving DecidableEq, Repr

/-- `_to_dt` applied to a dict value that may be absent: `None` is an empty
marker, a string is parsed. -/
def to_dtOpt (v : Option String) : Option Instant := v.bind to_dt

/-- `add_certificate`: validate the required trio, build the record, then
`db.add(c); db.commit()`. A commit that violates the
`(trainset_id, dept, valid_to)` unique constraint raises `IntegrityError`
out of the function — there is no try/except — and the failed transaction
leaves the store unchanged. -/
def add_certificate (db : List Certificate) (nid : Nat) (r : AddRecord) :
    AddOutcome × List Certificate :=
  let t := strStrip (r.trainset_id.getD "")
  let d := dept_norm (r.dept.getD "")
  match to_dtOpt r.valid_to with
  | none =>
    (.errorResult
      "trainset_id, dept, valid_to are required. Use YYYY-MM-DD / DD/MM/YYYY / MM/DD/YYYY.",
      db)
  | some vt =>
    if t = "" || d = "" then
      (.errorResult
        "trainset_id, dept, valid_to are required. Use YYYY-MM-DD / DD/MM/YYYY / MM/DD/YYYY.",
        db)
    else
      let c : Certificate :=
        { id := nid
          trainset_id := t
          dept := d
          status := match r.status with
            | some s => if s = "" then none else some (strLower s)
            | none => none
          valid_from := r.valid_from.bind to_dt
          valid_to := vt
          source := r.source.getD "api" }
      if existsTriple db t d vt then (.raised "IntegrityError: uq_cert_train_dept_to", db)
      else (.ok nid, db ++ [c])

/-- The incoming patch of `update_certificate`: outer `some` means the key is
present; for the date keys the inner value is the raw JSON value (`none` for a
JSON null, which `_to_dt` treats as an empty marker). -/
structure CertPatch where
  trainset_id : Option String
  dept : Option String
  status : Option String
  valid_from : Option (Option String)
  valid_to : Option (Option String)
deriving DecidableEq, Repr

/-- The dict returned by `update_certificate`. -/
structure UpdateResult where
  updated : Nat
  error : Option String
deriving DecidableEq, Repr

/-- `db.commit()` of a mutated ORM object: the row with this id takes the
mutated field values. -/
def commitReplace (db : List Certificate) (cid : Nat) (c : Certificate) :
    List Certificate :=
  db.map (fun x => if x.id = cid then c else x)

/-- `update_certificate(cert_id, patch)`: look the row up; apply each supplied
field to the ORM object in source order; if `valid_to` is supplied but fails
`_to_dt`, return `{updated: 0, error}` — the session closes without
`db.commit()`, so every pending ORM mutation (including the other patched
fields) is rolled back and the store is unchanged; otherwise commit. -/
def update_certificate (db : List Certificate) (cid : Nat) (p : CertPatch) :
    UpdateResult × List Certificate :=
  match db.find? (fun c => decide (c.id = cid)) with
  | none => ({ updated := 0, error := some "not found" }, db)
  | some c0 =>
    let c1 := match p.trainset_id with
      | some s => { c0 with trainset_id := strStrip s }
      | none => c0
    let c2 := match p.dept with
      | some s => { c1 with dept := dept_norm s }
      | none => c1
    let c3 := match p.status with
      | some s => { c2 with status := if strLower s = "" then none else some (strLower s) }
      | none => c2
    let c4 := match p.valid_from with
      | some v => { c3 with valid_from := to_dtOpt v }
      | none => c3
    match p.valid_to with
    | some v =>
      match to_dtOpt v with
      | none => ({ updated := 0, error := some "valid_to must be a valid date" }, db)
      | some vt => ({ updated := 1, error := none }, commitReplace db cid { c4 with valid_to := vt })
    | none => ({ updated := 1, error := none }, commitReplace db cid c4)

/-! ## The reconciliation invariant and the latest-record characterization -/

/-- The `uq_cert_train_dept_to` unique constraint: no two rows of the table
share a (trainset_id, dept, valid_to) triple. -/
def uniqueTriple (db : List Certificate) : Prop :=
  db.Pairwise (fun c₁ c₂ =>
    ¬(c₁.trainset_id = c₂.trainset_id ∧ c₁.dept = c₂.dept ∧ c₁.valid_to = c₂.valid_to))

/-- `m` is a record of pair `(t, d)` whose `valid_to` bounds the whole group:
the spec's "record with the maximum validTo". -/
def IsMaxRecord (store : List Certificate) (t d : String) (m : Certificate) : Prop :=
  m ∈ store ∧ m.trainset_id = t ∧ m.dept = d ∧
    ∀ c ∈ store, c.trainset_id = t → c.dept = d → Instant.le c.valid_to m.valid_to = true

instance (db : List Certificate) : Decidable (uniqueTriple db) := by
  unfold uniqueTriple
  infer_instance

instance (store : List Certificate) (t d : String) (m : Certificate) :
    Decidable (IsMaxRecord store t d m) := by
  unfold IsMaxRecord
  infer_instance


/-- How often a row value occurs in a list (the table is a multiset of rows;
under `uniqueTriple` every row occurs at most once). -/
def countOcc (m : Certificate) (l : List Certificate) : Nat :=
  (l.filter (fun c => decide (c = m))).length

/-- The contribution of the pair `(t, d)` to `total_active`: the number of
joined latest rows of that pair passing `totalRule`. `total_active` is the sum
of the contributions over all pairs, since every joined row carries exactly one
(trainset_id, dept) pair. -/
def pairContribution (now : Instant) (db : List Certificate) (t d : String) : Nat :=
  ((latestRows db).filter (fun c =>
    decide (c.trainset_id = t) && decide (c.dept = d) && totalRule now c)).length

/-- The number of rows of a batch whose expiry cell parsed to a real date
(the rows the first run "successfully parsed"). -/
def parsedCount (rows : List IngRow) : Nat :=
  (rows.filter (fun r => r.vto.isSome)).length

/-! # Supporting theorems -/
theorem Instant.le_iff (a b : Instant) :
    Instant.le a b = true ↔ a.day < b.day ∨ (a.day = b.day ∧ a.tod ≤ b.tod) := by
  simp [Instant.le]

theorem Instant.le_refl (a : Instant) : Instant.le a a = true := by
  simp [Instant.le]

theorem Instant.le_trans {a b c : Instant} (h₁ : Instant.le a b = true)
    (h₂ : Instant.le b c = true) : Instant.le a c = true := by
  rw [Instant.le_iff] at h₁ h₂ ⊢
  omega

theorem Instant.le_antisymm {a b : Instant} (h₁ : Instant.le a b = true)
    (h₂ : Instant.le b a = true) : a = b := by
  rw [Instant.le_iff] at h₁ h₂
  rcases a with ⟨d₁, t₁⟩
  rcases b with ⟨d₂, t₂⟩
  simp_all only [Instant.mk.injEq]
  omega

theorem Instant.le_total (a b : Instant) :
    Instant.le a b = true ∨ Instant.le b a = true := by
  rw [Instant.le_iff, Instant.le_iff]
  omega

theorem length_insertSorted (le : α → α → Bool) (x : α) (l : List α) :
    (insertSorted le x l).length = l.length + 1 := by
  induction l with
  | nil => rfl
  | cons y ys ih =>
    simp only [insertSorted]
    split <;> simp [ih]

theorem length_sortedBy (le : α → α → Bool) (l : List α) :
    (sortedBy le l).length = l.length := by
  induction l with
  | nil => rfl
  | cons x xs ih => simp [sortedBy, length_insertSorted, ih]

theorem mem_insertSorted (le : α → α → Bool) (x a : α) (l : List α) :
    a ∈ insertSorted le x l ↔ a = x ∨ a ∈ l := by
  induction l with
  | nil => simp [insertSorted]
  | cons y ys ih =>
    simp only [insertSorted]
    split
    · simp
    · simp only [List.mem_cons, ih]
      tauto

theorem mem_sortedBy (le : α → α → Bool) (a : α) (l : List α) :
    a ∈ sortedBy le l ↔ a ∈ l := by
  induction l with
  | nil => simp [sortedBy]
  | cons x xs ih => simp [sortedBy, mem_insertSorted, ih]

theorem mem_groupOf (store : List Certificate) (t d : String) (c : Certificate) :
    c ∈ groupOf store t d ↔ c ∈ store ∧ c.trainset_id = t ∧ c.dept = d := by
  simp [groupOf, List.mem_filter]

theorem maxValidTo_spec (l : List Certificate) (v : Instant)
    (h : maxValidTo l = some v) :
    (∃ c ∈ l, c.valid_to = v) ∧ ∀ c ∈ l, Instant.le c.valid_to v = true := by
  induction l generalizing v with
  | nil => simp [maxValidTo] at h
  | cons c rest ih =>
    rw [maxValidTo] at h
    cases hrest : maxValidTo rest with
    | none =>
      rw [hrest] at h
      have hv : v = c.valid_to := by
        cases h; rfl
      subst hv
      have hempty : rest = [] := by
        cases rest with
        | nil => rfl
        | cons x xs =>
          rw [maxValidTo] at hrest
          cases hx : maxValidTo xs <;> rw [hx] at hrest <;> cases hrest
      subst hempty
      exact ⟨⟨c, by simp⟩, by simp [Instant.le_refl]⟩
    | some m =>
      rw [hrest] at h
      have hrec := ih m hrest
      have h' : some (if Instant.le m c.valid_to = true then c.valid_to else m) = some v := h
      by_cases hle : Instant.le m c.valid_to = true
      · have hv : v = c.valid_to := by
          rw [if_pos hle] at h'; cases h'; rfl
        subst hv
        refine ⟨⟨c, by simp⟩, ?_⟩
        intro x hx
        rcases List.mem_cons.mp hx with hx | hx
        · subst hx; exact Instant.le_refl _
        · exact Instant.le_trans (hrec.2 x hx) hle
      · have hv : v = m := by
          rw [if_neg hle] at h'; cases h'; rfl
        rcases hrec.1 with ⟨c₀, hc₀, hval⟩
        refine ⟨⟨c₀, List.mem_cons_of_mem _ hc₀, by rw [hval, hv]⟩, ?_⟩
        intro x hx
        rcases List.mem_cons.mp hx with hx | hx
        · subst hx
          rcases Instant.le_total x.valid_to m with h'' | h''
          · rw [hv]; exact h''
          · exact absurd h'' hle
        · rw [hv]; exact hrec.2 x hx

theorem maxValidTo_isSome (l : List Certificate) (h : l ≠ []) :
    ∃ v, maxValidTo l = some v := by
  cases l with
  | nil => exact absurd rfl h
  | cons c rest =>
    cases hrest : maxValidTo rest <;> simp [maxValidTo, hrest]

theorem maxValidTo_of_max (l : List Certificate) (m : Certificate)
    (hm : m ∈ l) (hub : ∀ c ∈ l, Instant.le c.valid_to m.valid_to = true) :
    maxValidTo l = some m.valid_to := by
  rcases maxValidTo_isSome l (List.ne_nil_of_mem hm) with ⟨v, hv⟩
  rcases maxValidTo_spec l v hv with ⟨⟨c₀, hc₀, hc₀v⟩, hvub⟩
  have h₁ : Instant.le v m.valid_to = true := hc₀v ▸ hub c₀ hc₀
  have h₂ : Instant.le m.valid_to v = true := hvub m hm
  rw [hv, Instant.le_antisymm h₂ h₁]

theorem mem_latestRows (store : List Certificate) (c : Certificate) :
    c ∈ latestRows store ↔
      c ∈ store ∧ maxValidTo (groupOf store c.trainset_id c.dept) = some c.valid_to := by
  simp [latestRows, isLatest, List.mem_filter]

theorem uniqueTriple_eq {db : List Certificate} (hu : uniqueTriple db)
    {c₁ c₂ : Certificate} (h₁ : c₁ ∈ db) (h₂ : c₂ ∈ db)
    (ht : c₁.trainset_id = c₂.trainset_id) (hd : c₁.dept = c₂.dept)
    (hv : c₁.valid_to = c₂.valid_to) : c₁ = c₂ := by
  by_contra hne
  have hsymm : Symmetric fun c₁ c₂ : Certificate =>
      ¬(c₁.trainset_id = c₂.trainset_id ∧ c₁.dept = c₂.dept ∧ c₁.valid_to = c₂.valid_to) := by
    intro a b hab ⟨x, y, z⟩
    exact hab ⟨x.symm, y.symm, z.symm⟩
  exact (hu.forall hsymm h₁ h₂ hne) ⟨ht, hd, hv⟩

/-- Under the unique constraint, the join's rows for a pair are exactly the
pair's maximum record. -/
theorem latest_pair_eq {store : List Certificate} (hu : uniqueTriple store)
    {t d : String} {m : Certificate} (hm : IsMaxRecord store t d m) :
    ∀ c, (c ∈ latestRows store ∧ c.trainset_id = t ∧ c.dept = d) ↔ c = m := by
  obtain ⟨hmem, hmt, hmd, hub⟩ := hm
  intro c
  constructor
  · rintro ⟨hlat, hct, hcd⟩
    rcases (mem_latestRows store c).mp hlat with ⟨hcs, hcmax⟩
    rw [hct, hcd] at hcmax
    have hmax : maxValidTo (groupOf store t d) = some m.valid_to := by
      apply maxValidTo_of_max
      · exact (mem_groupOf store t d m).mpr ⟨hmem, hmt, hmd⟩
      · intro x hx
        rcases (mem_groupOf store t d x).mp hx with ⟨hxs, hxt, hxd⟩
        exact hub x hxs hxt hxd
    have hveq : c.valid_to = m.valid_to := by
      have := hcmax.symm.trans hmax
      exact (Option.some.injEq _ _ ▸ this)
    exact uniqueTriple_eq hu hcs hmem (hct.trans hmt.symm) (hcd.trans hmd.symm) hveq
  · rintro rfl
    refine ⟨(mem_latestRows store c).mpr ⟨hmem, ?_⟩, hmt, hmd⟩
    rw [hmt, hmd]
    apply maxValidTo_of_max
    · exact (mem_groupOf store t d c).mpr ⟨hmem, hmt, hmd⟩
    · intro x hx
      rcases (mem_groupOf store t d x).mp hx with ⟨hxs, hxt, hxd⟩
      exact hub x hxs hxt hxd

theorem countOcc_pos (m : Certificate) (l : List Certificate) (h : m ∈ l) :
    1 ≤ countOcc m l := by
  unfold countOcc
  have hmem : m ∈ l.filter (fun c => decide (c = m)) :=
    List.mem_filter.mpr ⟨h, by simp⟩
  have := List.length_pos.mpr (List.ne_nil_of_mem hmem)
  omega

theorem countOcc_eq_zero (m : Certificate) (l : List Certificate) (h : m ∉ l) :
    countOcc m l = 0 := by
  unfold countOcc
  rw [List.length_eq_zero, List.filter_eq_nil_iff]
  intro a ha
  simp only [decide_eq_true_eq]
  intro heq
  exact h (heq ▸ ha)

theorem countOcc_le_one (m : Certificate) (db : List Certificate)
    (hu : uniqueTriple db) : countOcc m db ≤ 1 := by
  induction db with
  | nil => simp [countOcc]
  | cons x xs ih =>
    rcases List.pairwise_cons.mp hu with ⟨hx, hxs⟩
    have htail := ih hxs
    unfold countOcc at htail ⊢
    rw [List.filter_cons]
    by_cases hxm : x = m
    · subst hxm
      have hnot : x ∉ xs := fun hmem => hx x hmem ⟨rfl, rfl, rfl⟩
      have hz := countOcc_eq_zero x xs hnot
      unfold countOcc at hz
      simp [hz]
    · simpa [hxm] using htail

theorem countOcc_filter_le (p : Certificate → Bool) (m : Certificate)
    (l : List Certificate) : countOcc m (l.filter p) ≤ countOcc m l := by
  induction l with
  | nil => simp [countOcc]
  | cons x xs ih =>
    unfold countOcc at ih ⊢
    by_cases hp : p x = true
    · rw [List.filter_cons, if_pos hp, List.filter_cons, List.filter_cons]
      by_cases hm : decide (x = m) = true
      · rw [if_pos hm, if_pos hm]
        simp only [List.length_cons]
        omega
      · rw [if_neg hm, if_neg hm]
        exact ih
    · rw [List.filter_cons, if_neg hp, List.filter_cons]
      by_cases hm : decide (x = m) = true
      · rw [if_pos hm]
        simp only [List.length_cons]
        omega
      · rw [if_neg hm]
        exact ih

theorem countOcc_latestRows_eq_one (db : List Certificate) (m : Certificate)
    (hu : uniqueTriple db) (hmem : m ∈ latestRows db) :
    countOcc m (latestRows db) = 1 := by
  have h₁ := countOcc_pos m (latestRows db) hmem
  have h₂ : countOcc m (latestRows db) ≤ countOcc m db :=
    countOcc_filter_le (isLatest db) m db
  have h₃ := countOcc_le_one m db hu
  omega

theorem length_filter_char (L : List Certificate) (R : Certificate → Bool)
    (m : Certificate) (hchar : ∀ c ∈ L, (R c = true ↔ c = m)) :
    (L.filter R).length = countOcc m L := by
  unfold countOcc
  congr 1
  apply List.filter_congr
  intro c hc
  have hck := hchar c hc
  by_cases hcm : c = m
  · subst hcm
    simp [hck.mpr rfl]
  · have hf : R c = false := by
      rcases h : R c with _ | _
      · rfl
      · exact absurd (hck.mp h) hcm
    simp [hf, hcm]

theorem exceptMap_ok {ε α β : Type} (f : α → β) (e : Except ε α) (b : β) :
    e.map f = .ok b ↔ ∃ a, e = .ok a ∧ f a = b := by
  cases e <;> simp [Except.map]

theorem existsTriple_append (db l : List Certificate) (t d : String) (vt : Instant)
    (h : existsTriple db t d vt = true) : existsTriple (db ++ l) t d vt = true := by
  simp only [existsTriple, List.any_eq_true] at h ⊢
  rcases h with ⟨c, hc, hp⟩
  exact ⟨c, List.mem_append_left l hc, hp⟩

theorem upsert_extends : ∀ (rows : List IngRow) (db : List Certificate) (nid : Nat)
    (res : UpsertResult) (db' : List Certificate),
    upsertRows rows db nid = .ok (res, db') → ∃ l, db' = db ++ l := by
  intro rows
  induction rows with
  | nil =>
    intro db nid res db' h
    have h' : (Except.ok (⟨0, 0⟩, db) : Except String (UpsertResult × List Certificate))
        = .ok (res, db') := h
    cases h'
    exact ⟨[], by simp⟩
  | cons r rest ih =>
    intro db nid res db' h
    rw [upsertRows] at h
    cases hv : r.vto with
    | none => simp [hv, to_dt_cell] at h
    | some dt =>
      simp only [hv, to_dt_cell] at h
      cases hvf : vfromValue r.vfrom with
      | error e => simp [hvf] at h
      | ok vf =>
        simp only [hvf] at h
        split at h
        · rcases (exceptMap_ok _ _ _).mp h with ⟨⟨res₀, db₀⟩, htail, hout⟩
          rcases ih db nid res₀ db₀ htail with ⟨l, hl⟩
          have hdb' : db₀ = db' := congrArg Prod.snd hout
          exact ⟨l, hdb' ▸ hl⟩
        · rcases (exceptMap_ok _ _ _).mp h with ⟨⟨res₀, db₀⟩, htail, hout⟩
          rcases ih _ _ res₀ db₀ htail with ⟨l, hl⟩
          have hdb' : db₀ = db' := congrArg Prod.snd hout
          refine ⟨mkCert nid r { day := (dayOrd dt.y dt.m dt.d : Int), tod := 0 } vf :: l, ?_⟩
          rw [← hdb', hl]
          simp

theorem upsert_covers : ∀ (rows : List IngRow) (db : List Certificate) (nid : Nat)
    (res : UpsertResult) (db' : List Certificate) (r : IngRow) (dt : CivilDate),
    upsertRows rows db nid = .ok (res, db') → r ∈ rows → r.vto = some dt →
    existsTriple db' (strStrip r.train) (strStrip r.dept)
      { day := (dayOrd dt.y dt.m dt.d : Int), tod := 0 } = true := by
  intro rows
  induction rows with
  | nil =>
    intro db nid res db' r dt _ hmem _
    cases hmem
  | cons r₀ rest ih =>
    intro db nid res db' r dt h hmem hv
    rw [upsertRows] at h
    cases hv₀ : r₀.vto with
    | none => simp [hv₀, to_dt_cell] at h
    | some dt₀ =>
      simp only [hv₀, to_dt_cell] at h
      cases hvf : vfromValue r₀.vfrom with
      | error e => simp [hvf] at h
      | ok vf =>
        simp only [hvf] at h
        rcases List.mem_cons.mp hmem with heq | hmem'
        · subst heq
          have hdt : dt₀ = dt := Option.some.inj (hv₀.symm.trans hv)
          rw [← hdt]
          split at h
          · rename_i hex
            rcases (exceptMap_ok _ _ _).mp h with ⟨⟨res₀, db₀⟩, htail, hout⟩
            have hdb' : db₀ = db' := congrArg Prod.snd hout
            rcases upsert_extends rest db nid res₀ db₀ htail with ⟨l, hl⟩
            rw [← hdb', hl]
            simp only [mkCert] at hex
            exact existsTriple_append db l _ _ _ hex
          · rcases (exceptMap_ok _ _ _).mp h with ⟨⟨res₀, db₀⟩, htail, hout⟩
            have hdb' : db₀ = db' := congrArg Prod.snd hout
            rcases upsert_extends rest _ _ res₀ db₀ htail with ⟨l, hl⟩
            rw [← hdb', hl]
            simp only [existsTriple, List.any_eq_true]
            exact ⟨mkCert nid r { day := (dayOrd dt₀.y dt₀.m dt₀.d : Int), tod := 0 } vf,
              by simp, by simp [mkCert]⟩
        · split at h
          · rcases (exceptMap_ok _ _ _).mp h with ⟨⟨res₀, db₀⟩, htail, hout⟩
            have hdb' : db₀ = db' := congrArg Prod.snd hout
            exact hdb' ▸ ih db nid res₀ db₀ r dt htail hmem' hv
          · rcases (exceptMap_ok _ _ _).mp h with ⟨⟨res₀, db₀⟩, htail, hout⟩
            have hdb' : db₀ = db' := congrArg Prod.snd hout
            exact hdb' ▸ ih _ _ res₀ db₀ r dt htail hmem' hv

theorem upsert_all_skip : ∀ (rows : List IngRow) (db : List Certificate) (nid : Nat),
    (∀ r ∈ rows, ∃ dt, r.vto = some dt ∧
        existsTriple db (strStrip r.train) (strStrip r.dept)
          { day := (dayOrd dt.y dt.m dt.d : Int), tod := 0 } = true) →
    (∀ r ∈ rows, (vfromValue r.vfrom).isOk = true) →
    upsertRows rows db nid = .ok (⟨0, rows.length⟩, db) := by
  intro rows
  induction rows with
  | nil => intro db nid _ _; rfl
  | cons r rest ih =>
    intro db nid hex hvf
    rcases hex r (List.mem_cons_self r rest) with ⟨dt, hv, hx⟩
    have hvfr := hvf r (List.mem_cons_self r rest)
    obtain ⟨vf, hvfc⟩ : ∃ vf, vfromValue r.vfrom = Except.ok vf := by
      cases hm : vfromValue r.vfrom with
      | error e => rw [hm] at hvfr; simp [Except.isOk, Except.toBool] at hvfr
      | ok vf => exact ⟨vf, rfl⟩
    have hcond : existsTriple db
        (mkCert nid r { day := (dayOrd dt.y dt.m dt.d : Int), tod := 0 } vf).trainset_id
        (mkCert nid r { day := (dayOrd dt.y dt.m dt.d : Int), tod := 0 } vf).dept
        (mkCert nid r { day := (dayOrd dt.y dt.m dt.d : Int), tod := 0 } vf).valid_to = true := by
      simpa [mkCert] using hx
    rw [upsertRows, hv]
    simp only [to_dt_cell, hvfc]
    rw [if_pos hcond]
    have htail := ih db nid
      (fun x hx' => hex x (List.mem_cons_of_mem r hx'))
      (fun x hx' => hvf x (List.mem_cons_of_mem r hx'))
    rw [htail]
    rfl

/-! # Claim theorems -/

/-- C1, counterexample: the claim says `total_active` counts a pair exactly when
its latest record satisfies the same validity rule as `expiring_within` (status
in the valid set, or status absent and validTo in the future). A pair whose
latest record has status "valid" but validTo in the past satisfies that rule,
yet `total_active` does not count it: `total_active` additionally requires
`valid_to >= now` for every status. -/
theorem C1_counterexample :
    total_active ⟨150, 0⟩
        [⟨1, "T1", "RS", some "valid", none, ⟨100, 0⟩, "api"⟩] = 0 ∧
    latestRows [⟨1, "T1", "RS", some "valid", none, ⟨100, 0⟩, "api"⟩] =
        [⟨1, "T1", "RS", some "valid", none, ⟨100, 0⟩, "api"⟩] ∧
    specValidityRule ⟨150, 0⟩ (some "valid") ⟨100, 0⟩ = true := by
  decide

/-- C1, amended: for every stored state satisfying the uniqueness constraint
and every (entityId, category) pair, `total_active` counts the pair exactly
when its latest record (the maximum-validTo record) has status absent or in the
valid-status synonym set AND its validTo is >= now — the future-dated
requirement applies to every status, unlike the `expiring_within` gate. The
pair's contribution to the count is 1 when its latest record passes `totalRule`
and 0 otherwise. -/
theorem C1_amended (now : Instant) (db : List Certificate) (t d : String)
    (m : Certificate) (hu : uniqueTriple db) (hm : IsMaxRecord db t d m) :
    pairContribution now db t d = if totalRule now m then 1 else 0 := by
  have hchar := latest_pair_eq hu hm
  by_cases hT : totalRule now m = true
  · rw [if_pos hT]
    unfold pairContribution
    rw [length_filter_char (latestRows db) _ m ?hc]
    case hc =>
      intro c hc
      constructor
      · intro hR
        simp only [Bool.and_eq_true, decide_eq_true_eq] at hR
        exact (hchar c).mp ⟨hc, hR.1.1, hR.1.2⟩
      · intro hcm
        subst hcm
        have hmm := (hchar c).mpr rfl
        simp only [Bool.and_eq_true, decide_eq_true_eq]
        exact ⟨⟨hmm.2.1, hmm.2.2⟩, hT⟩
    exact countOcc_latestRows_eq_one db m hu (((hchar m).mpr rfl).1)
  · rw [if_neg hT]
    unfold pairContribution
    rw [List.length_eq_zero, List.filter_eq_nil_iff]
    intro c hc hR
    simp only [Bool.and_eq_true, decide_eq_true_eq] at hR
    have hceq : c = m := (hchar c).mp ⟨hc, hR.1.1, hR.1.2⟩
    subst hceq
    exact hT hR.2

/-- C1, witness for the amended theorem at a concrete store: one pair whose
latest record has absent status and future validTo contributes 1. -/
theorem C1_witness :
    pairContribution ⟨150, 0⟩
      [⟨1, "T1", "RS", none, none, ⟨100, 0⟩, "api"⟩,
       ⟨2, "T1", "RS", none, none, ⟨200, 0⟩, "api"⟩] "T1" "RS" = 1 := by
  have h := C1_amended ⟨150, 0⟩
    [⟨1, "T1", "RS", none, none, ⟨100, 0⟩, "api"⟩,
     ⟨2, "T1", "RS", none, none, ⟨200, 0⟩, "api"⟩] "T1" "RS"
    ⟨2, "T1", "RS", none, none, ⟨200, 0⟩, "api"⟩
    (by decide) (by decide)
  rw [h]
  decide

/-- C2, counterexample: a latest record with absent status whose validTo
instant passed earlier today still passes the validity gate of
`expiring_within` (because `_valid_status_clause(None)` is already `True`), and
it is in fact reported by the selection with `days_to_expiry = 0` — the claim
says such a record is excluded. `specValidityRule` is the rule as the spec
words it, and it disagrees with the code's gate at this input. -/
theorem C2_counterexample :
    expiringGate ⟨150, 50⟩ none ⟨150, 10⟩ = true ∧
    Instant.le ⟨150, 50⟩ ⟨150, 10⟩ = false ∧
    specValidityRule ⟨150, 50⟩ none ⟨150, 10⟩ = false ∧
    expiringSelect 7 ⟨150, 50⟩ [⟨1, "T1", "RS", none, none, ⟨150, 10⟩, "csv-import"⟩] =
      [⟨1, "T1", "RS", none, none, ⟨150, 10⟩, "csv-import"⟩] := by
  decide

/-- C2, amended: a latest record passes the validity gate of `expiring_within`
exactly when its status is absent or in the valid-status synonym set — the
future-dated disjunct is redundant because an absent status alone already
passes `_valid_status_clause`, so a record with absent status and a validTo
instant already in the past is NOT excluded by the gate. -/
theorem C2_amended (now : Instant) (st : Option String) (vto : Instant) :
    expiringGate now st vto = valid_status_clause st := by
  cases st with
  | none => simp [expiringGate, valid_status_clause]
  | some s => simp [expiringGate]

/-- C3: for every N >= 0 and every latest record passing the validity gate,
`expiring_within(N)` selects the record exactly when the calendar-day
difference between validTo's date and today's date (date-only subtraction in
the reference timezone) is between 0 and N inclusive. -/
theorem C3_window (days : Int) (_hdays : 0 ≤ days) (now : Instant)
    (store : List Certificate) (c : Certificate)
    (hlat : c ∈ latestRows store)
    (hgate : expiringGate now c.status c.valid_to = true) :
    c ∈ expiringSelect days now store ↔
      (0 ≤ c.valid_to.day - now.day ∧ c.valid_to.day - now.day ≤ days) := by
  unfold expiringSelect
  rw [List.mem_filter]
  simp [hlat, hgate]

/-- C3, witness: a record with validTo on tomorrow's date (at an arbitrary
time-of-day) is selected for N = 1 and not selected for N = 0. -/
theorem C3_witness :
    (⟨1, "T1", "RS", some "valid", none, ⟨101, 937⟩, "api"⟩ : Certificate) ∈
        expiringSelect 1 ⟨100, 240⟩
          [⟨1, "T1", "RS", some "valid", none, ⟨101, 937⟩, "api"⟩] ∧
    (⟨1, "T1", "RS", some "valid", none, ⟨101, 937⟩, "api"⟩ : Certificate) ∉
        expiringSelect 0 ⟨100, 240⟩
          [⟨1, "T1", "RS", some "valid", none, ⟨101, 937⟩, "api"⟩] :=
  ⟨(C3_window 1 (by decide) ⟨100, 240⟩ _ _ (by decide) (by decide)).mpr (by decide),
   fun h => absurd
     ((C3_window 0 (by decide) ⟨100, 240⟩ _ _ (by decide) (by decide)).mp h)
     (by decide)⟩

/-- C4, counterexample: the batch column parse tries the permissive pandas
parse (month-first by default) BEFORE any explicit format, and keeps it as soon
as one cell parses, so the column ["01/02/2024"] is interpreted as January 2
(month-first) — while the explicit `%d/%m/%Y` format, had it been tried first,
reads the same string as February 1 (day-first). The claim that a value
matching DD/MM/YYYY is never reinterpreted as month-first is therefore false
for ingestion's column parse. -/
theorem C4_counterexample :
    parse_date_series ["01/02/2024"] = [some ⟨2024, 1, 2⟩] ∧
    fmtDmySlash "01/02/2024" = some ⟨2024, 2, 1⟩ := by
  decide

/-- C4, amended: per column the strategies are tried in the source order —
permissive month-first-default parse, permissive day-first parse, then the
explicit formats — and the first strategy whose whole-column parse yields at
least one non-null result is kept for the whole column. In particular, whenever
any cell parses under the permissive month-first-default parse, that parse is
the one kept for every cell of the column. -/
theorem C4_amended (col : List String)
    (h : ∃ s ∈ col, (pandasCoerce false s).isSome = true) :
    parse_date_series col = col.map (pandasCoerce false) := by
  have hany : (col.map (pandasCoerce false)).any Option.isSome = true := by
    rcases h with ⟨s, hs, hsome⟩
    simp only [List.any_eq_true, List.mem_map]
    exact ⟨pandasCoerce false s, ⟨s, hs, rfl⟩, hsome⟩
  unfold parse_date_series seriesStrategies
  rw [trySeries]
  simp only [hany, if_true]

/-- C4, witness: the amended theorem applied to the single-cell column
["01/02/2024"]. -/
theorem C4_witness :
    parse_date_series ["01/02/2024"] = ["01/02/2024"].map (pandasCoerce false) :=
  C4_amended ["01/02/2024"] ⟨"01/02/2024", by decide, by decide⟩

/-- C5: under the uniqueness constraint, for every (entityId, category) pair
that has at least one record, the Reporter's latest-record join selects exactly
the record with the maximum validTo of the pair, and the same record is
selected after any permutation of the stored rows (insertion order is
irrelevant). -/
theorem C5_latest_selection (store store' : List Certificate)
    (hperm : store.Perm store') (hu : uniqueTriple store) (t d : String)
    (m : Certificate) (hm : IsMaxRecord store t d m) :
    (∀ c, (c ∈ latestRows store ∧ c.trainset_id = t ∧ c.dept = d) ↔ c = m) ∧
    (∀ c, (c ∈ latestRows store' ∧ c.trainset_id = t ∧ c.dept = d) ↔ c = m) := by
  have hsymm : Symmetric fun c₁ c₂ : Certificate =>
      ¬(c₁.trainset_id = c₂.trainset_id ∧ c₁.dept = c₂.dept ∧ c₁.valid_to = c₂.valid_to) := by
    intro a b hab ⟨x, y, z⟩
    exact hab ⟨x.symm, y.symm, z.symm⟩
  have hu' : uniqueTriple store' := (hperm.pairwise_iff @hsymm).mp hu
  have hm' : IsMaxRecord store' t d m :=
    ⟨hperm.mem_iff.mp hm.1, hm.2.1, hm.2.2.1,
     fun c hc => hm.2.2.2 c (hperm.mem_iff.mpr hc)⟩
  exact ⟨latest_pair_eq hu hm, latest_pair_eq hu' hm'⟩

/-- C5, witness: two records of the same pair inserted newest-first and
oldest-first; in both orders the selection picks the maximum-validTo record. -/
theorem C5_witness :
    (⟨2, "T1", "RS", none, none, ⟨200, 0⟩, "csv-import"⟩ : Certificate) ∈
        latestRows [⟨2, "T1", "RS", none, none, ⟨200, 0⟩, "csv-import"⟩,
                    ⟨1, "T1", "RS", none, none, ⟨100, 0⟩, "csv-import"⟩] :=
  (((C5_latest_selection
      [⟨1, "T1", "RS", none, none, ⟨100, 0⟩, "csv-import"⟩,
       ⟨2, "T1", "RS", none, none, ⟨200, 0⟩, "csv-import"⟩]
      [⟨2, "T1", "RS", none, none, ⟨200, 0⟩, "csv-import"⟩,
       ⟨1, "T1", "RS", none, none, ⟨100, 0⟩, "csv-import"⟩]
      (by decide) (by decide) "T1" "RS"
      ⟨2, "T1", "RS", none, none, ⟨200, 0⟩, "csv-import"⟩
      (by decide)).2
    ⟨2, "T1", "RS", none, none, ⟨200, 0⟩, "csv-import"⟩).mpr rfl).1

/-- C6: ingesting the same batch twice is idempotent. For a batch all of whose
rows carry a parseable expiry (and whose valid_from cells do not raise — see
C7), if the first run returns `(res₁, db₁)`, then the second run over the same
rows imports nothing, skips exactly the rows the first run successfully parsed
(all of them), and leaves the store unchanged. -/
theorem C6_idempotent (rows : List IngRow) (db db₁ : List Certificate)
    (nid nid' : Nat) (res₁ : UpsertResult)
    (hparse : ∀ r ∈ rows, r.vto.isSome = true)
    (hvf : ∀ r ∈ rows, (vfromValue r.vfrom).isOk = true)
    (h₁ : upsertRows rows db nid = .ok (res₁, db₁)) :
    upsertRows rows db₁ nid' = .ok (⟨0, parsedCount rows⟩, db₁) := by
  have hlen : parsedCount rows = rows.length := by
    unfold parsedCount
    rw [List.filter_eq_self.mpr hparse]
  rw [hlen]
  apply upsert_all_skip
  · intro r hr
    obtain ⟨dt, hdt⟩ := Option.isSome_iff_exists.mp (hparse r hr)
    exact ⟨dt, hdt, upsert_covers rows db nid res₁ db₁ r dt h₁ hr hdt⟩
  · exact hvf

/-- C6, witness: a concrete two-row batch ingested twice: the second run
returns imported = 0 and skipped = 2 (= rows successfully parsed by the first
run) and leaves the table unchanged. -/
theorem C6_witness :
    upsertRows
      [⟨"T1", "RS", none, none, some ⟨2025, 1, 1⟩⟩,
       ⟨"T1", "RS", none, none, some ⟨2026, 1, 1⟩⟩]
      [⟨1, "T1", "RS", none, none, ⟨(dayOrd 2025 1 1 : Int), 0⟩, "csv-import"⟩,
       ⟨2, "T1", "RS", none, none, ⟨(dayOrd 2026 1 1 : Int), 0⟩, "csv-import"⟩] 3 =
      .ok (⟨0, parsedCount
          [⟨"T1", "RS", none, none, some ⟨2025, 1, 1⟩⟩,
           ⟨"T1", "RS", none, none, some ⟨2026, 1, 1⟩⟩]⟩,
        [⟨1, "T1", "RS", none, none, ⟨(dayOrd 2025 1 1 : Int), 0⟩, "csv-import"⟩,
         ⟨2, "T1", "RS", none, none, ⟨(dayOrd 2026 1 1 : Int), 0⟩, "csv-import"⟩]) :=
  C6_idempotent
    [⟨"T1", "RS", none, none, some ⟨2025, 1, 1⟩⟩,
     ⟨"T1", "RS", none, none, some ⟨2026, 1, 1⟩⟩]
    [] _ 1 3 ⟨2, 0⟩ (by decide) (by decide) (by rfl)

/-- C7: the claim says a row whose expiry fails to normalize is counted as
skipped and the batch continues to a returned result. In the code, such a cell
is `NaT` after the column parse; `NaT` slips past `_to_dt`'s marker check
(which compares the raw object, not its string form, against "NaT"), is an
instance of `datetime` with `tzinfo = None`, and `IST.localize(NaT)` raises
`ValueError` inside pytz — so ingesting a batch with one bad expiry row aborts
with an exception before commit, importing nothing, instead of skipping that
row. The code contradicts its own intent: the marker tuple lists "NaT" and the
`if vt is None: skipped += 1` branch exists precisely for this case but is
unreachable for column cells. -/
theorem C7_nat_aborts_batch :
    upsertRows
      [⟨"T1", "RS", none, none, some ⟨2025, 1, 1⟩⟩,
       ⟨"T2", "RS", none, none, none⟩,
       ⟨"T3", "RS", none, none, some ⟨2025, 2, 2⟩⟩] [] 1 =
      .error "ValueError: Naive time - no tzinfo set" := by
  rfl

/-- C8: for every existing record and every patch whose validTo value fails to
parse, `update_certificate` returns `{updated: 0, error}` and leaves the stored
record fully unchanged, including any other fields supplied in the same patch:
the pending ORM mutations are discarded because the session closes without
commit. -/
theorem C8_bad_validto_rejected (db : List Certificate) (cid : Nat)
    (p : CertPatch) (c0 : Certificate)
    (hfind : db.find? (fun c => decide (c.id = cid)) = some c0)
    (v : Option String) (hp : p.valid_to = some v)
    (hbad : to_dtOpt v = none) :
    update_certificate db cid p =
      ({ updated := 0, error := some "valid_to must be a valid date" }, db) := by
  unfold update_certificate
  simp only [hfind, hp, hbad]

/-- C8, witness: a patch that changes trainset_id and dept but supplies the
unparseable validTo "not-a-date" is rejected whole; the stored row keeps every
original field. -/
theorem C8_witness :
    update_certificate [⟨1, "T1", "RS", none, none, ⟨100, 0⟩, "api"⟩] 1
        ⟨some "ZZ", some "TEL", none, none, some (some "not-a-date")⟩ =
      ({ updated := 0, error := some "valid_to must be a valid date" },
       [⟨1, "T1", "RS", none, none, ⟨100, 0⟩, "api"⟩]) :=
  C8_bad_validto_rejected [⟨1, "T1", "RS", none, none, ⟨100, 0⟩, "api"⟩] 1
    ⟨some "ZZ", some "TEL", none, none, some (some "not-a-date")⟩
    ⟨1, "T1", "RS", none, none, ⟨100, 0⟩, "api"⟩
    (by decide) (some "not-a-date") rfl (by decide)

/-- C9, counterexample: adding a record that duplicates an existing
(trainset_id, dept, valid_to) triple does NOT produce an `{error}` result
object — `db.commit()` raises `IntegrityError` out of `add_certificate`
(there is no try/except), so the constraint violation crosses the core
boundary as an exception; the store is left unchanged by the failed
transaction. -/
theorem C9_counterexample :
    add_certificate
        [⟨10, "T1", "RS", none, none, ⟨(dayOrd 2099 12 31 : Int), 0⟩, "api"⟩] 11
        ⟨some "T1", some "RS", none, none, some "31/12/2099", none⟩ =
      (.raised "IntegrityError: uq_cert_train_dept_to",
       [⟨10, "T1", "RS", none, none, ⟨(dayOrd 2099 12 31 : Int), 0⟩, "api"⟩]) := by
  rfl

/-- C9, amended: a valid add request (required trio present and parseable)
whose (trainset_id, dept, valid_to) triple already exists raises the storage
layer's IntegrityError to the caller and leaves the store unchanged; the
`{error}` result object is produced only for a missing or unparseable required
field. -/
theorem C9_amended (db : List Certificate) (nid : Nat) (r : AddRecord)
    (vt : Instant)
    (hvt : to_dtOpt r.valid_to = some vt)
    (ht : ¬(strStrip (r.trainset_id.getD "") = ""))
    (hd : ¬(dept_norm (r.dept.getD "") = ""))
    (hdup : existsTriple db (strStrip (r.trainset_id.getD ""))
      (dept_norm (r.dept.getD "")) vt = true) :
    add_certificate db nid r = (.raised "IntegrityError: uq_cert_train_dept_to", db) := by
  unfold add_certificate
  simp only [hvt]
  rw [if_neg (by simp [ht, hd]), if_pos hdup]

/-- C9, witness for the amended theorem at a concrete duplicate add. -/
theorem C9_witness :
    add_certificate
        [⟨10, "T2", "SIG", none, none, ⟨(dayOrd 2030 6 15 : Int), 0⟩, "api"⟩] 11
        ⟨some "T2", some "SIG", some "valid", none, some "2030-06-15", none⟩ =
      (.raised "IntegrityError: uq_cert_train_dept_to",
       [⟨10, "T2", "SIG", none, none, ⟨(dayOrd 2030 6 15 : Int), 0⟩, "api"⟩]) :=
  C9_amended [⟨10, "T2", "SIG", none, none, ⟨(dayOrd 2030 6 15 : Int), 0⟩, "api"⟩]
    11 ⟨some "T2", some "SIG", some "valid", none, some "2030-06-15", none⟩
    ⟨(dayOrd 2030 6 15 : Int), 0⟩ (by decide) (by decide) (by decide) (by decide)

/-- C10: for every limit and offset, the `count` field of `list_certificates`
is the length of the returned page — at most `limit`, and equal to
`min limit (stored - offset)` — not the total number of stored records. -/
theorem C10_count_is_page (db : List Certificate) (lim off : Nat) :
    (list_certificates db lim off).count = (list_certificates db lim off).rows.length ∧
    (list_certificates db lim off).count ≤ lim ∧
    (list_certificates db lim off).count = min lim (db.length - off) := by
  have hc : (list_certificates db lim off).count = min lim (db.length - off) := by
    simp [list_certificates, List.length_take, List.length_drop, length_sortedBy]
  exact ⟨rfl, by rw [hc]; exact Nat.min_le_left _ _, hc⟩
